import Mathlib

/-!
Shallow embedding of `scripts/issue-migration.py`, a one-shot GitHub
migration script.  The remote GitHub state is modelled explicitly
(`DestState` for the destination repository, `SourceState` for the
source), and every remote operation both updates that state and emits an
`ApiCall` event, so that the order and arguments of the script's API
calls can be reasoned about as a trace.
-/

namespace IssueMigration

/-- A GitHub issue label: name, hex color, description
(the three fields the script reads and forwards). -/
structure Label where
  name : String
  color : String
  description : String
deriving DecidableEq

/-- A source issue as consumed by the script: title, body and the
labels attached to it. -/
structure Issue where
  title : String
  body : String
  labels : List Label
deriving DecidableEq

/-- A project board: destination-assigned id, name and body. -/
structure Board where
  id : Nat
  name : String
  body : String
deriving DecidableEq

/-- One remote API call made by the script, with the arguments the
script passes. -/
inductive ApiCall where
  | listSourceBoards : ApiCall
  | listColumns (boardId : Nat) : ApiCall
  | createBoard (name body : String) : ApiCall
  | listDestBoards : ApiCall
  | createColumn (boardId : Nat) (name : String) : ApiCall
  | listLabels : ApiCall
  | createLabel (name color description : String) : ApiCall
  | listIssuesPage : ApiCall
  | createIssue (title body : String) (labels : List String) : ApiCall
deriving DecidableEq

/-- Server-side state of the destination repository: its labels, its
project boards (in listing order; a newly created board is appended),
the created columns as (board id, column name) pairs in creation order,
and the created issues as (title, body, label names) in creation
order. -/
structure DestState where
  labels : List Label
  boards : List Board
  columns : List (Nat × String)
  issues : List (String × String × List String)
deriving DecidableEq

/-- Read-only state of the source repository: its project boards in
listing order, the columns of each board (by board id), and its issues
as the paged listing returns them. -/
structure SourceState where
  boards : List Board
  columnsOf : Nat → List String
  issuePages : List (List Issue)

/-- Embeds `get_labels_for_repo` (lines 20-38): list the destination's
labels and keep only their names. -/
def get_labels_for_repo (st : DestState) : List String :=
  st.labels.map Label.name

/-- Embeds `create_label_for_repo` (lines 41-65): one `create_label`
call with the label's name, color and description; the server appends
the label. -/
def create_label_for_repo (st : DestState) (L : Label) : DestState × ApiCall :=
  ({ st with labels := st.labels ++ [L] },
   ApiCall.createLabel L.name L.color L.description)

/-- Embeds `create_issue` (lines 68-88): one `issues.create` call with
title, body and label names; the server appends the issue. -/
def create_issue (st : DestState) (title body : String) (labels : List String) :
    DestState × ApiCall :=
  ({ st with issues := st.issues ++ [(title, body, labels)] },
   ApiCall.createIssue title body labels)

/-- Result of a synchronizer step: destination state, the locally
cached list of destination label names, and the API calls emitted. -/
structure StepResult where
  dest : DestState
  cache : List String
  calls : List ApiCall
deriving DecidableEq

/-- Embeds the ensure-label step, lines 146-149 of `main`: if the
label's name is not in the cached name list, create it and re-fetch the
full destination label list; otherwise do nothing. -/
def ensureLabel (st : DestState) (cache : List String) (L : Label) : StepResult :=
  if L.name ∈ cache then ⟨st, cache, []⟩
  else
    let r := create_label_for_repo st L
    ⟨r.1, get_labels_for_repo r.1, [r.2, ApiCall.listLabels]⟩

/-- The inner `for label in issue_labels` loop of `main` (lines
146-149), threading the destination state and label-name cache. -/
def processLabels (st : DestState) (cache : List String) : List Label → StepResult
  | [] => ⟨st, cache, []⟩
  | L :: rest =>
      let r := ensureLabel st cache L
      let r2 := processLabels r.dest r.cache rest
      ⟨r2.dest, r2.cache, r.calls ++ r2.calls⟩

/-- Processing of one source issue (lines 136-157 of `main`): ensure
each of its labels exists, then create the issue with its title, body
and label names. -/
def processIssue (st : DestState) (cache : List String) (item : Issue) : StepResult :=
  let issue_labels := item.labels
  let r := processLabels st cache issue_labels
  let c := create_issue r.dest item.title item.body (issue_labels.map Label.name)
  ⟨c.1, r.cache, r.calls ++ [c.2]⟩

/-- The inner `for item in p` loop of `main` (line 135). -/
def processIssues (st : DestState) (cache : List String) : List Issue → StepResult
  | [] => ⟨st, cache, []⟩
  | item :: rest =>
      let r := processIssue st cache item
      let r2 := processIssues r.dest r.cache rest
      ⟨r2.dest, r2.cache, r.calls ++ r2.calls⟩

/-- The outer `for p in pages` loop of `main` (line 134); each page is
fetched by the paged listing (one API call) before it is processed. -/
def processPages (st : DestState) (cache : List String) : List (List Issue) → StepResult
  | [] => ⟨st, cache, []⟩
  | p :: rest =>
      let r := processIssues st cache p
      let r2 := processPages r.dest r.cache rest
      ⟨r2.dest, r2.cache, ApiCall.listIssuesPage :: (r.calls ++ r2.calls)⟩

/-- Board replication, lines 103-123 of `main`: take the first source
board, list its columns, create a board with the same name and body at
the destination, re-list the destination's boards, and create each
column under the id of the first listed destination board.  `none`
models the `IndexError` raised when a `[0]` access hits an empty
listing. -/
def replicateBoard (src : SourceState) (st : DestState) (freshId : Nat) :
    Option (DestState × List ApiCall) :=
  match src.boards with
  | [] => none
  | b :: _ =>
      let cols := src.columnsOf b.id
      let newBoard : Board := ⟨freshId, b.name, b.body⟩
      let st1 : DestState := { st with boards := st.boards ++ [newBoard] }
      match st1.boards.head? with
      | none => none
      | some db =>
          some ({ st1 with columns := st1.columns ++ cols.map (fun c => (db.id, c)) },
            [ApiCall.listSourceBoards, ApiCall.listColumns b.id,
             ApiCall.createBoard b.name b.body, ApiCall.listDestBoards]
            ++ cols.map (fun c => ApiCall.createColumn db.id c))

/-- Line 93 of `main`: the token is the value of `GITHUB_TOKEN` when
the variable is set, `None` otherwise. -/
def readToken (env : List (String × String)) : Option String :=
  match env.find? (fun p => p.1 = "GITHUB_TOKEN") with
  | none => none
  | some p => some p.2

/-- The error message of the `ValueError` raised at lines 95-98. -/
def tokenErrorMessage : String := "GITHUB-TOKEN is required to continue"

/-- The message of the `IndexError` Python raises on an out-of-range
list index. -/
def indexErrorMessage : String := "list index out of range"

/-- The pipeline `main` runs once the token check has passed (lines
100-157): initialise the client with the token, replicate the board,
fetch the destination labels, then replicate the issues page by page.
Returns the final destination state (or the uncaught error's message)
together with the full API-call trace. -/
def runPipeline (_token : String) (src : SourceState) (st : DestState) (freshId : Nat) :
    Except String DestState × List ApiCall :=
  match replicateBoard src st freshId with
  | none => (Except.error indexErrorMessage, [ApiCall.listSourceBoards])
  | some (st1, tr1) =>
      let labels := get_labels_for_repo st1
      let r := processPages st1 labels src.issuePages
      (Except.ok r.dest, tr1 ++ ApiCall.listLabels :: r.calls)

/-- Embeds `main` (lines 91-157): read the token from the environment,
raise the configuration error when it is absent (before any API call),
otherwise run the pipeline with the token. -/
def runMain (env : List (String × String)) (src : SourceState) (st : DestState)
    (freshId : Nat) : Except String DestState × List ApiCall :=
  match readToken env with
  | none => (Except.error tokenErrorMessage, [])
  | some token => runPipeline token src st freshId

/-! ### Trace auditing definitions -/

/-- The names passed to the create-label calls of a trace, in order. -/
def createdNames : List ApiCall → List String
  | [] => []
  | ApiCall.createLabel n _ _ :: rest => n :: createdNames rest
  | _ :: rest => createdNames rest

/-- Replays a trace against the destination's label-name set (which
only create-label calls change): `true` iff every create-label call in
the trace is for a name absent from the destination at the moment of
the call. -/
def createsAreFresh (names : List String) : List ApiCall → Bool
  | [] => true
  | ApiCall.createLabel n _ _ :: rest =>
      if n ∈ names then false else createsAreFresh (names ++ [n]) rest
  | _ :: rest => createsAreFresh names rest

/-- The issue-creation calls of a trace, in order. -/
def issueCreations : List ApiCall → List ApiCall
  | [] => []
  | ApiCall.createIssue t b ls :: rest => ApiCall.createIssue t b ls :: issueCreations rest
  | _ :: rest => issueCreations rest

/-- The issue-creation call the script makes for a given source issue. -/
def mkIssueCall (item : Issue) : ApiCall :=
  ApiCall.createIssue item.title item.body (item.labels.map Label.name)

/-- Character-list version of "pat is a leading segment of s". -/
def startsWithChars : List Char → List Char → Bool
  | [], _ => true
  | _ :: _, [] => false
  | p :: ps, c :: cs => (p = c) && startsWithChars ps cs

/-- Character-list version of "pat occurs inside s". -/
def hasSubChars (pat : List Char) : List Char → Bool
  | [] => startsWithChars pat []
  | c :: cs => startsWithChars pat (c :: cs) || hasSubChars pat cs

/-- A message names (mentions) a variable iff the variable's name
occurs inside the message, as a contiguous substring. -/
def strMentions (msg v : String) : Bool :=
  hasSubChars v.data msg.data

/-! ### Invariant machinery for the label synchronizer -/

/-- The synchronizer invariant relative to a starting destination state
`st`: the cache equals the destination's label names, the destination's
label names are the starting ones followed by the created ones, and
every create-label call in the trace was for a then-absent name. -/
def SyncInv (st : DestState) (r : StepResult) : Prop :=
  r.cache = get_labels_for_repo r.dest
  ∧ get_labels_for_repo r.dest = get_labels_for_repo st ++ createdNames r.calls
  ∧ createsAreFresh (get_labels_for_repo st) r.calls = true

lemma createdNames_append (a b : List ApiCall) :
    createdNames (a ++ b) = createdNames a ++ createdNames b := by
  induction a with
  | nil => rfl
  | cons c l ih => cases c <;> simp [createdNames, ih]

lemma createsAreFresh_append (names : List String) (a b : List ApiCall) :
    createsAreFresh names (a ++ b)
      = (createsAreFresh names a && createsAreFresh (names ++ createdNames a) b) := by
  induction a generalizing names with
  | nil => simp [createsAreFresh, createdNames]
  | cons c l ih =>
      cases c <;>
        simp [createsAreFresh, createdNames, ih, List.append_assoc]
      case createLabel n col d =>
        by_cases hn : n ∈ names <;> simp [hn, ih, List.append_assoc]

lemma SyncInv_comp {st : DestState} {r1 r2 : StepResult}
    (h1 : SyncInv st r1) (h2 : SyncInv r1.dest r2) :
    SyncInv st ⟨r2.dest, r2.cache, r1.calls ++ r2.calls⟩ := by
  obtain ⟨c1, n1, f1⟩ := h1
  obtain ⟨c2, n2, f2⟩ := h2
  refine ⟨c2, ?_, ?_⟩
  · simp [createdNames_append, n2, n1, List.append_assoc]
  · simp [createsAreFresh_append, f1, f2, n1.symm]

lemma ensureLabel_eq_of_mem (st : DestState) (cache : List String) (L : Label)
    (hm : L.name ∈ cache) :
    ensureLabel st cache L = ⟨st, cache, []⟩ := by
  simp [ensureLabel, hm]

lemma ensureLabel_eq_of_not_mem (st : DestState) (cache : List String) (L : Label)
    (hm : L.name ∉ cache) :
    ensureLabel st cache L =
      ⟨{ st with labels := st.labels ++ [L] },
       get_labels_for_repo { st with labels := st.labels ++ [L] },
       [ApiCall.createLabel L.name L.color L.description, ApiCall.listLabels]⟩ := by
  simp [ensureLabel, hm, create_label_for_repo]

lemma ensureLabel_SyncInv (st : DestState) (cache : List String) (L : Label)
    (h : cache = get_labels_for_repo st) :
    SyncInv st (ensureLabel st cache L) := by
  by_cases hm : L.name ∈ cache
  · rw [ensureLabel_eq_of_mem st cache L hm]
    exact ⟨h, by simp [createdNames], by simp [createsAreFresh]⟩
  · rw [ensureLabel_eq_of_not_mem st cache L hm]
    refine ⟨rfl, ?_, ?_⟩
    · simp [get_labels_for_repo, createdNames]
    · have hm2 : L.name ∉ get_labels_for_repo st := h ▸ hm
      simp [createsAreFresh, hm2]

lemma processLabels_SyncInv (st : DestState) (cache : List String) (ls : List Label)
    (h : cache = get_labels_for_repo st) :
    SyncInv st (processLabels st cache ls) := by
  induction ls generalizing st cache with
  | nil => exact ⟨h, by simp [processLabels, createdNames], by simp [processLabels, createsAreFresh]⟩
  | cons L rest ih =>
      have h1 := ensureLabel_SyncInv st cache L h
      have h2 := ih (ensureLabel st cache L).dest (ensureLabel st cache L).cache h1.1
      exact SyncInv_comp h1 h2

lemma create_issue_labels (st : DestState) (t b : String) (ls : List String) :
    get_labels_for_repo (create_issue st t b ls).1 = get_labels_for_repo st := rfl

lemma processIssue_SyncInv (st : DestState) (cache : List String) (item : Issue)
    (h : cache = get_labels_for_repo st) :
    SyncInv st (processIssue st cache item) := by
  have h1 := processLabels_SyncInv st cache item.labels h
  obtain ⟨c1, n1, f1⟩ := h1
  refine ⟨?_, ?_, ?_⟩
  · simpa [processIssue, create_issue, get_labels_for_repo] using c1
  · simpa [processIssue, create_issue, get_labels_for_repo, createdNames_append,
      createdNames] using n1
  · simp [processIssue, createsAreFresh_append, createdNames, createsAreFresh, f1]

lemma processIssues_SyncInv (st : DestState) (cache : List String) (items : List Issue)
    (h : cache = get_labels_for_repo st) :
    SyncInv st (processIssues st cache items) := by
  induction items generalizing st cache with
  | nil => exact ⟨h, by simp [processIssues, createdNames], by simp [processIssues, createsAreFresh]⟩
  | cons item rest ih =>
      have h1 := processIssue_SyncInv st cache item h
      have h2 := ih (processIssue st cache item).dest (processIssue st cache item).cache h1.1
      exact SyncInv_comp h1 h2

lemma processPages_SyncInv (st : DestState) (cache : List String)
    (pages : List (List Issue)) (h : cache = get_labels_for_repo st) :
    SyncInv st (processPages st cache pages) := by
  induction pages generalizing st cache with
  | nil => exact ⟨h, by simp [processPages, createdNames], by simp [processPages, createsAreFresh]⟩
  | cons p rest ih =>
      have h1 := processIssues_SyncInv st cache p h
      have h2 := ih (processIssues st cache p).dest (processIssues st cache p).cache h1.1
      have h3 := SyncInv_comp h1 h2
      obtain ⟨c3, n3, f3⟩ := h3
      exact ⟨c3, by simpa [processPages, createdNames] using n3,
        by simpa [processPages, createsAreFresh] using f3⟩

lemma issueCreations_append (a b : List ApiCall) :
    issueCreations (a ++ b) = issueCreations a ++ issueCreations b := by
  induction a with
  | nil => rfl
  | cons c l ih => cases c <;> simp [issueCreations, ih]

lemma issueCreations_ensureLabel (st : DestState) (cache : List String) (L : Label) :
    issueCreations (ensureLabel st cache L).calls = [] := by
  by_cases hm : L.name ∈ cache
  · rw [ensureLabel_eq_of_mem st cache L hm]
    rfl
  · rw [ensureLabel_eq_of_not_mem st cache L hm]
    rfl

lemma issueCreations_processLabels (st : DestState) (cache : List String) (ls : List Label) :
    issueCreations (processLabels st cache ls).calls = [] := by
  induction ls generalizing st cache with
  | nil => rfl
  | cons L rest ih =>
      simp [processLabels, issueCreations_append, issueCreations_ensureLabel, ih]

lemma processIssue_calls (st : DestState) (cache : List String) (item : Issue) :
    (processIssue st cache item).calls
      = (processLabels st cache item.labels).calls ++ [mkIssueCall item] := by
  simp [processIssue, create_issue, mkIssueCall]

lemma issueCreations_processIssue (st : DestState) (cache : List String) (item : Issue) :
    issueCreations (processIssue st cache item).calls = [mkIssueCall item] := by
  simp [processIssue_calls, issueCreations_append, issueCreations_processLabels,
    issueCreations, mkIssueCall]

lemma issueCreations_processIssues (st : DestState) (cache : List String)
    (items : List Issue) :
    issueCreations (processIssues st cache items).calls = items.map mkIssueCall := by
  induction items generalizing st cache with
  | nil => rfl
  | cons item rest ih =>
      simp [processIssues, issueCreations_append, issueCreations_processIssue, ih]

lemma issueCreations_processPages (st : DestState) (cache : List String)
    (pages : List (List Issue)) :
    issueCreations (processPages st cache pages).calls = pages.flatten.map mkIssueCall := by
  induction pages generalizing st cache with
  | nil => rfl
  | cons p rest ih =>
      simp [processPages, issueCreations, issueCreations_append,
        issueCreations_processIssues, ih]

/-! ### Board replication lemmas -/

lemma replicateBoard_eq_empty_dest (src : SourceState) (st : DestState) (fid : Nat)
    (b : Board) (bs : List Board) (h : src.boards = b :: bs) (hd : st.boards = []) :
    replicateBoard src st fid =
      some ({ st with boards := st.boards ++ [⟨fid, b.name, b.body⟩],
                      columns := st.columns ++ (src.columnsOf b.id).map (fun c => (fid, c)) },
        [ApiCall.listSourceBoards, ApiCall.listColumns b.id,
         ApiCall.createBoard b.name b.body, ApiCall.listDestBoards]
        ++ (src.columnsOf b.id).map (fun c => ApiCall.createColumn fid c)) := by
  simp [replicateBoard, h, hd]

lemma replicateBoard_eq_nonempty_dest (src : SourceState) (st : DestState) (fid : Nat)
    (b : Board) (bs : List Board) (pb : Board) (pbs : List Board)
    (h : src.boards = b :: bs) (hd : st.boards = pb :: pbs) :
    replicateBoard src st fid =
      some ({ st with boards := st.boards ++ [⟨fid, b.name, b.body⟩],
                      columns := st.columns ++ (src.columnsOf b.id).map (fun c => (pb.id, c)) },
        [ApiCall.listSourceBoards, ApiCall.listColumns b.id,
         ApiCall.createBoard b.name b.body, ApiCall.listDestBoards]
        ++ (src.columnsOf b.id).map (fun c => ApiCall.createColumn pb.id c)) := by
  simp [replicateBoard, h, hd]

/-! ### Concrete fixtures used by witnesses -/

/-- The "bug" label of the spec's worked example. -/
def labelBug : Label := ⟨"bug", "ff0000", "defect"⟩

/-- A second label, absent from `destWithBug`. -/
def labelDocs : Label := ⟨"docs", "00ff00", "documentation"⟩

/-- A label sharing `labelBug`'s name but with different color and
description. -/
def labelBugVariant : Label := ⟨"bug", "0000ff", "defect elsewhere"⟩

/-- A destination repository that already has the "bug" label. -/
def destWithBug : DestState := ⟨[labelBug], [], [], []⟩

/-- An empty destination repository. -/
def emptyDest : DestState := ⟨[], [], [], []⟩

/-- A source repository with no boards and no issues. -/
def emptySource : SourceState := ⟨[], fun _ => [], []⟩

/-- The spec's worked board example. -/
def ossaBoard : Board := ⟨5, "OSSA", "desc"⟩

/-- A source repository holding the OSSA board with its three columns. -/
def srcOssa : SourceState :=
  ⟨[ossaBoard], fun _ => ["To Do", "In Progress", "Done"], []⟩

/-- A pre-existing destination board, listed before any newly created
board. -/
def priorBoard : Board := ⟨3, "old", "x"⟩

/-- A destination repository that already has a project board. -/
def destWithBoard : DestState := ⟨[], [priorBoard], [], []⟩

/-- The spec's worked issue example. -/
def issueA : Issue := ⟨"Bug X", "repro steps", [labelBug]⟩

/-- A second sample issue. -/
def issueB : Issue := ⟨"Second", "b2", [labelDocs]⟩

/-- A third sample issue, without labels. -/
def issueC : Issue := ⟨"Third", "b3", []⟩

/-- Two pages of sizes 2 and 1. -/
def samplePages : List (List Issue) := [[issueA, issueB], [issueC]]

/-! ### Claim theorems -/

/-- C1: in every run whose label-name cache starts out accurate, the
synchronizer never issues a create-label call for a name already
present at the destination: replaying the full trace of the issue loop
against the destination's evolving label-name set finds every
create-label call fresh. -/
theorem synchronizer_never_recreates_existing_name (st : DestState)
    (cache : List String) (pages : List (List Issue))
    (h : cache = get_labels_for_repo st) :
    createsAreFresh (get_labels_for_repo st) (processPages st cache pages).calls = true :=
  (processPages_SyncInv st cache pages h).2.2

/-- Witness for C1 at a concrete destination and two concrete pages. -/
theorem synchronizer_never_recreates_existing_name_witness :
    createsAreFresh (get_labels_for_repo destWithBug)
      (processPages destWithBug ["bug"] samplePages).calls = true :=
  synchronizer_never_recreates_existing_name destWithBug ["bug"] samplePages (by decide)

/-- C2: when the label's name is already in the destination label list
(and the cache is accurate), the ensure-label step makes no API call
and leaves both the destination state and the cache unchanged. -/
theorem ensureLabel_noop_on_present (st : DestState) (cache : List String) (L : Label)
    (hacc : cache = get_labels_for_repo st)
    (hmem : L.name ∈ get_labels_for_repo st) :
    ensureLabel st cache L = ⟨st, cache, []⟩ :=
  ensureLabel_eq_of_mem st cache L (by rw [hacc]; exact hmem)

/-- Witness for C2: the "bug" label is already present. -/
theorem ensureLabel_noop_on_present_witness :
    ensureLabel destWithBug ["bug"] labelBug = ⟨destWithBug, ["bug"], []⟩ :=
  ensureLabel_noop_on_present destWithBug ["bug"] labelBug (by decide) (by decide)

/-- C3: when the label's name is absent from the destination (and the
cache is accurate), the ensure-label step makes exactly one
create-label call with the label's name, color and description,
followed by one full label re-fetch, and afterwards both the cache and
the destination label set contain the name. -/
theorem ensureLabel_creates_absent (st : DestState) (cache : List String) (L : Label)
    (hacc : cache = get_labels_for_repo st)
    (habs : L.name ∉ get_labels_for_repo st) :
    ensureLabel st cache L =
      ⟨{ st with labels := st.labels ++ [L] },
       get_labels_for_repo { st with labels := st.labels ++ [L] },
       [ApiCall.createLabel L.name L.color L.description, ApiCall.listLabels]⟩
    ∧ L.name ∈ (ensureLabel st cache L).cache
    ∧ L.name ∈ get_labels_for_repo (ensureLabel st cache L).dest := by
  have hm : L.name ∉ cache := by rw [hacc]; exact habs
  have he := ensureLabel_eq_of_not_mem st cache L hm
  refine ⟨he, ?_, ?_⟩ <;> rw [he] <;> simp [get_labels_for_repo]

/-- Witness for C3: the "docs" label is absent. -/
theorem ensureLabel_creates_absent_witness :
    (ensureLabel destWithBug ["bug"] labelDocs =
      ⟨{ destWithBug with labels := destWithBug.labels ++ [labelDocs] },
       get_labels_for_repo { destWithBug with labels := destWithBug.labels ++ [labelDocs] },
       [ApiCall.createLabel "docs" "00ff00" "documentation", ApiCall.listLabels]⟩
    ∧ "docs" ∈ (ensureLabel destWithBug ["bug"] labelDocs).cache
    ∧ "docs" ∈ get_labels_for_repo (ensureLabel destWithBug ["bug"] labelDocs).dest) :=
  ensureLabel_creates_absent destWithBug ["bug"] labelDocs (by decide) (by decide)

/-- C4: for every issue, all ensure-label work precedes a single
create-issue call carrying the issue's title, body and label names (the
label phase emits no issue creation); and on the spec's worked example
against an empty destination, the trace is exactly one "bug" label
creation, a label re-fetch, then the issue creation with
labels=["bug"]. -/
theorem issue_created_after_its_labels :
    (∀ (st : DestState) (cache : List String) (item : Issue),
      (processIssue st cache item).calls
        = (processLabels st cache item.labels).calls ++ [mkIssueCall item]
      ∧ issueCreations (processLabels st cache item.labels).calls = [])
    ∧ (processIssue emptyDest [] issueA).calls
        = [ApiCall.createLabel "bug" "ff0000" "defect", ApiCall.listLabels,
           ApiCall.createIssue "Bug X" "repro steps" ["bug"]] := by
  constructor
  · intro st cache item
    exact ⟨processIssue_calls st cache item, issueCreations_processLabels st cache item.labels⟩
  · decide

/-- C5: the issue replicator processes each issue of the paged listing
exactly once, in page order and within-page order: the issue creations
of the trace are exactly the flattened pages' issues, in order; on two
concrete pages of sizes 2 and 1 it creates exactly those 3 issues in
the original order. -/
theorem pages_processed_in_order_once :
    (∀ (st : DestState) (cache : List String) (pages : List (List Issue)),
      issueCreations (processPages st cache pages).calls
        = pages.flatten.map mkIssueCall)
    ∧ issueCreations (processPages emptyDest [] samplePages).calls
        = [mkIssueCall issueA, mkIssueCall issueB, mkIssueCall issueC] := by
  refine ⟨fun st cache pages => issueCreations_processPages st cache pages, ?_⟩
  decide

/-- C6: the board replicator takes the first source board, makes
exactly one create-board call with its name and body, then one
create-column call per source column, in source listing order; the new
board is added to the destination and the columns are recorded in
order. -/
theorem board_replicated_with_columns_in_order (src : SourceState) (st : DestState)
    (fid : Nat) (b : Board) (bs : List Board) (h : src.boards = b :: bs) :
    ∃ st2 dbId,
      replicateBoard src st fid = some (st2,
        [ApiCall.listSourceBoards, ApiCall.listColumns b.id,
         ApiCall.createBoard b.name b.body, ApiCall.listDestBoards]
        ++ (src.columnsOf b.id).map (fun c => ApiCall.createColumn dbId c))
      ∧ st2.boards = st.boards ++ [⟨fid, b.name, b.body⟩]
      ∧ st2.columns = st.columns ++ (src.columnsOf b.id).map (fun c => (dbId, c)) := by
  cases hd : st.boards with
  | nil =>
      exact ⟨_, fid, replicateBoard_eq_empty_dest src st fid b bs h hd, by rw [hd], rfl⟩
  | cons pb pbs =>
      exact ⟨_, pb.id, replicateBoard_eq_nonempty_dest src st fid b bs pb pbs h hd,
        by rw [hd], rfl⟩

/-- Witness for C6: the OSSA board with its three columns, replicated
into an empty destination. -/
theorem board_replicated_with_columns_in_order_witness :
    ∃ st2 dbId,
      replicateBoard srcOssa emptyDest 9 = some (st2,
        [ApiCall.listSourceBoards, ApiCall.listColumns 5,
         ApiCall.createBoard "OSSA" "desc", ApiCall.listDestBoards]
        ++ ["To Do", "In Progress", "Done"].map (fun c => ApiCall.createColumn dbId c))
      ∧ st2.boards = [⟨9, "OSSA", "desc"⟩]
      ∧ st2.columns = ["To Do", "In Progress", "Done"].map (fun c => (dbId, c)) := by
  have hw := board_replicated_with_columns_in_order srcOssa emptyDest 9 ossaBoard [] rfl
  simpa [srcOssa, ossaBoard, emptyDest] using hw

/-- C9: after creating the destination board, the column creations use
the id of the first board returned by re-listing the destination, not
the created board's id: with prior destination boards the columns
attach to the pre-existing first board; only with an empty destination
do they attach to the newly created board. -/
theorem columns_attach_to_first_listed_board :
    (∀ (src : SourceState) (st : DestState) (fid : Nat) (b : Board) (bs : List Board)
        (pb : Board) (pbs : List Board),
      src.boards = b :: bs → st.boards = pb :: pbs →
      ∃ st2, replicateBoard src st fid = some (st2,
        [ApiCall.listSourceBoards, ApiCall.listColumns b.id,
         ApiCall.createBoard b.name b.body, ApiCall.listDestBoards]
        ++ (src.columnsOf b.id).map (fun c => ApiCall.createColumn pb.id c)))
    ∧ (∀ (src : SourceState) (st : DestState) (fid : Nat) (b : Board) (bs : List Board),
      src.boards = b :: bs → st.boards = [] →
      ∃ st2, replicateBoard src st fid = some (st2,
        [ApiCall.listSourceBoards, ApiCall.listColumns b.id,
         ApiCall.createBoard b.name b.body, ApiCall.listDestBoards]
        ++ (src.columnsOf b.id).map (fun c => ApiCall.createColumn fid c))) := by
  constructor
  · intro src st fid b bs pb pbs h hd
    exact ⟨_, replicateBoard_eq_nonempty_dest src st fid b bs pb pbs h hd⟩
  · intro src st fid b bs h hd
    exact ⟨_, replicateBoard_eq_empty_dest src st fid b bs h hd⟩

/-- Witness for C9: with a pre-existing destination board of id 3 and a
fresh board id 9, the columns are created under board 3. -/
theorem columns_attach_to_first_listed_board_witness :
    ∃ st2, replicateBoard srcOssa destWithBoard 9 = some (st2,
      [ApiCall.listSourceBoards, ApiCall.listColumns 5,
       ApiCall.createBoard "OSSA" "desc", ApiCall.listDestBoards,
       ApiCall.createColumn 3 "To Do", ApiCall.createColumn 3 "In Progress",
       ApiCall.createColumn 3 "Done"]) := by
  have hw := columns_attach_to_first_listed_board.1 srcOssa destWithBoard 9
    ossaBoard [] priorBoard [] rfl rfl
  simpa [srcOssa, ossaBoard, priorBoard, destWithBoard] using hw

/-- C8: the synchronizer compares labels by name only: a source label
whose name matches an existing destination label triggers no creation,
and the existing destination label — with its own color and
description — survives unchanged. -/
theorem labels_matched_by_name_only (st : DestState) (cache : List String)
    (L L2 : Label) (hacc : cache = get_labels_for_repo st)
    (hmem : L2 ∈ st.labels) (hname : L2.name = L.name) :
    ensureLabel st cache L = ⟨st, cache, []⟩
    ∧ L2 ∈ (ensureLabel st cache L).dest.labels := by
  have hm : L.name ∈ get_labels_for_repo st := by
    rw [← hname]
    exact List.mem_map_of_mem Label.name hmem
  have he := ensureLabel_eq_of_mem st cache L (by rw [hacc]; exact hm)
  exact ⟨he, by rw [he]; exact hmem⟩

/-- Witness for C8: a source "bug" label with a different color and
description is discarded; the destination keeps its own "bug" label. -/
theorem labels_matched_by_name_only_witness :
    (ensureLabel destWithBug ["bug"] labelBugVariant = ⟨destWithBug, ["bug"], []⟩
    ∧ labelBug ∈ (ensureLabel destWithBug ["bug"] labelBugVariant).dest.labels)
    ∧ (labelBug.color ≠ labelBugVariant.color
       ∧ labelBug.description ≠ labelBugVariant.description) :=
  ⟨labels_matched_by_name_only destWithBug ["bug"] labelBugVariant labelBug
      (by decide) (by decide) (by decide),
   by decide⟩

/-- C7, counterexample to the wording as stated: with `GITHUB_TOKEN`
unset the entry point does fail with zero API calls, but the error
message does not contain the variable's name `GITHUB_TOKEN` (it spells
it `GITHUB-TOKEN`, with a hyphen). -/
theorem missing_token_message_lacks_variable_name :
    runMain [] emptySource emptyDest 0
      = (Except.error "GITHUB-TOKEN is required to continue", [])
    ∧ strMentions "GITHUB-TOKEN is required to continue" "GITHUB_TOKEN" = false := by
  constructor
  · rfl
  · decide

/-- C7 as amended: when `GITHUB_TOKEN` is unset, the entry point raises
the configuration error before any remote API call (the trace is
empty), and the message names the token by the hyphenated spelling
`GITHUB-TOKEN` rather than the variable's exact name. -/
theorem missing_token_fails_before_any_call (env : List (String × String))
    (src : SourceState) (st : DestState) (fid : Nat)
    (h : readToken env = none) :
    runMain env src st fid = (Except.error tokenErrorMessage, [])
    ∧ strMentions tokenErrorMessage "GITHUB-TOKEN" = true := by
  refine ⟨?_, by decide⟩
  simp [runMain, h]

/-- Witness for the amended C7 at a concrete environment without
`GITHUB_TOKEN`. -/
theorem missing_token_fails_before_any_call_witness :
    runMain [("OTHER", "x")] emptySource emptyDest 0
      = (Except.error tokenErrorMessage, [])
    ∧ strMentions tokenErrorMessage "GITHUB-TOKEN" = true :=
  missing_token_fails_before_any_call [("OTHER", "x")] emptySource emptyDest 0 (by decide)

/-- C10: when `GITHUB_TOKEN` is set to the empty string, the entry
point does not raise the missing-credential error: it proceeds into the
pipeline, with the empty string as the client's token, and whatever
error it can still produce is never the missing-credential one. -/
theorem empty_token_not_rejected (env : List (String × String)) (src : SourceState)
    (st : DestState) (fid : Nat) (h : readToken env = some "") :
    runMain env src st fid = runPipeline "" src st fid
    ∧ ∀ m, (runMain env src st fid).1 = Except.error m → m ≠ tokenErrorMessage := by
  have he : runMain env src st fid = runPipeline "" src st fid := by
    simp [runMain, h]
  refine ⟨he, ?_⟩
  intro m hm
  rw [he] at hm
  unfold runPipeline at hm
  cases hr : replicateBoard src st fid with
  | none =>
      rw [hr] at hm
      simp at hm
      subst hm
      decide
  | some v =>
      obtain ⟨st1, tr1⟩ := v
      rw [hr] at hm
      simp at hm

/-- Witness for C10 at a concrete environment with an empty token. -/
theorem empty_token_not_rejected_witness :
    runMain [("GITHUB_TOKEN", "")] srcOssa emptyDest 9 = runPipeline "" srcOssa emptyDest 9
    ∧ ∀ m, (runMain [("GITHUB_TOKEN", "")] srcOssa emptyDest 9).1 = Except.error m
        → m ≠ tokenErrorMessage :=
  empty_token_not_rejected [("GITHUB_TOKEN", "")] srcOssa emptyDest 9 (by decide)

end IssueMigration
